import Mathlib

/-
Verification of the CV / gap-analysis response splitter of the job_offers
repository.

The splitter lives in src/execution/generate_tailored_cv.py, function main,
lines 208 to 289 (the "3-LAYER GAP ANALYSIS DEFENSE" block plus the final
cv_content.strip() applied when the CV is persisted at line 289).  A second,
simpler one-layer splitter lives in src/webapp/main.py, function
_split_cv_and_gaps, lines 118 to 133.

Python strings are modelled as List Char.  The Python primitives used by the
source (str.find, str.rfind, the in operator, str.split with maxsplit 1,
str.strip, str.rstrip, str.lower) are given explicit executable models below.
str.lower maps each character to a list of characters: the ASCII and Latin-1
uppercase letters map down by 32 code points, and U+0130 (the dotted capital
I) expands to the two characters U+0069 U+0307 exactly as in CPython — the
only character whose str.lower result has a different length.  Because the
source computes first_forbidden_pos in cv_lower (line 262) but uses it as an
index into cv_content (line 268), this length change desynchronises the
Layer-3 scan position from the truncation index, and the model reproduces
that behaviour.
-/

namespace CVSplit

/-- Model of the Python whitespace test used by str.strip / str.rstrip:
space, tab, newline, carriage return, vertical tab, form feed. -/
def isPySpace (c : Char) : Bool :=
  c == ' ' || c == '\t' || c == '\n' || c == '\r' || c == '\x0b' || c == '\x0c'

/-- The single-character part of Python str.lower: ASCII A-Z and the
Latin-1 uppercase range (U+00C0 to U+00DE except the multiplication sign
U+00D7) map 32 code points up; everything else is fixed. -/
def lowerChar (c : Char) : Char :=
  if 65 ≤ c.toNat ∧ c.toNat ≤ 90 then Char.ofNat (c.toNat + 32)
  else if 192 ≤ c.toNat ∧ c.toNat ≤ 222 ∧ c.toNat ≠ 215 then Char.ofNat (c.toNat + 32)
  else c

/-- Model of Python str.lower on one character, as a list: U+0130 expands
to U+0069 followed by the combining dot above U+0307 (the only character
whose CPython str.lower image has length other than one); every other
character maps through lowerChar. -/
def lowerChars (c : Char) : List Char :=
  if c = 'İ' then ['i', '\u0307'] else [lowerChar c]

/-- Model of Python str.lower. -/
def lower : List Char → List Char
  | [] => []
  | c :: t => lowerChars c ++ lower t

/-- Model of Python str.lstrip (no argument). -/
def lstrip (s : List Char) : List Char := s.dropWhile isPySpace

/-- Model of Python str.rstrip (no argument). -/
def rstrip (s : List Char) : List Char := (s.reverse.dropWhile isPySpace).reverse

/-- Model of Python str.strip (no argument). -/
def strip (s : List Char) : List Char := lstrip (rstrip s)

/-- Model of Python s.find(p): index of the first occurrence of p in s,
or none when there is no occurrence (Python returns -1 there). -/
def findSub (p : List Char) : List Char → Option Nat
  | [] => if p.isPrefixOf ([] : List Char) then some 0 else none
  | c :: t => if p.isPrefixOf (c :: t) then some 0 else (findSub p t).map (· + 1)

/-- Model of Python s.rfind(c, 0, n) for a single character c, applied to
the list s.take n by the caller: index of the last occurrence of c. -/
def rfindChar (c : Char) : List Char → Option Nat
  | [] => none
  | a :: t =>
    match rfindChar c t with
    | some i => some (i + 1)
    | none => if a == c then some 0 else none

/-- The pattern p occurs in s starting at index i. -/
def occursAt (p s : List Char) (i : Nat) : Prop :=
  p.isPrefixOf (s.drop i) = true

instance (p s : List Char) (i : Nat) : Decidable (occursAt p s i) := by
  unfold occursAt; infer_instance

/-- The pattern p occurs somewhere in s; model of the Python in operator. -/
def Occurs (p s : List Char) : Prop := ∃ i, occursAt p s i

/-! ### The static tables of the source -/

/-- Line 209 of generate_tailored_cv.py. -/
def DETERMINISTIC_SEPARATOR : List Char := "---GAP_ANALYSIS_SEPARATOR---".data

/-- The fixed heading prefixed to the post-separator text at line 218. -/
def GAP_HEADING : List Char := "## Gap Analysis\n".data

/-- The placeholder gap analysis of line 212. -/
def DEFAULT_GAP : List Char := "## Gap Analysis\nNo significant gaps identified.".data

/-- Lines 223 to 237 of generate_tailored_cv.py. -/
def gap_markers : List (List Char) :=
  [ "## Gap Analysis".data,
    "## Análisis de Ajuste al Puesto".data,
    "## Análisis de Brechas".data,
    "## Analyse des Écarts".data,
    "## Lückenanalyse".data,
    "## Analisi delle Lacune".data,
    "## Análise de Lacunas".data,
    "## Análisis de Gaps y Recomendaciones".data,
    "## Análisis de Gaps".data,
    "## Gaps y Recomendaciones".data,
    "## Recommendations".data,
    "## Recomendaciones".data,
    "## Gap Analysis and Recommendations".data ]

/-- Lines 248 to 255 of generate_tailored_cv.py. -/
def forbidden_patterns : List (List Char) :=
  [ "gap analysis".data, "análisis de gaps".data, "análisis de brechas".data,
    "análisis de ajuste".data, "recomendaciones finales".data, "recommendations".data,
    "mitigación".data, "fortalezas compensatorias".data, "fortalezas excepcionales".data,
    "gaps identificados".data, "gaps y recomendaciones".data, "sugerencia cv".data,
    "sugerencia:".data, "durante la entrevista".data, "fit prácticamente perfecto".data,
    "match rating".data, "% match".data ]

/-- Lines 120 to 128 of webapp/main.py: the shorter marker list of the
web-service splitter. -/
def webapp_gap_markers : List (List Char) :=
  [ "## Gap Analysis".data,
    "## Análisis de Ajuste al Puesto".data,
    "## Análisis de Brechas".data,
    "## Analyse des Écarts".data,
    "## Lückenanalyse".data,
    "## Analisi delle Lacune".data,
    "## Análise de Lacunas".data ]

/-! ### The splitter itself -/

/-- The triple produced by the 3-layer splitter: the CV text, the gap
analysis text, and the diagnostic method string. -/
structure SplitResult where
  cv_content : List Char
  gap_analysis : List Char
  split_method : List Char
deriving DecidableEq, Repr

/-- Layers 1 and 2, lines 211 to 245 of generate_tailored_cv.py.
Layer 1 splits at the first occurrence of the deterministic separator;
otherwise Layer 2 splits at the first occurrence of the first marker in
list order that occurs anywhere in the text; otherwise the defaults of
lines 211 to 213 stand. -/
def layer12 (tailored_cv : List Char) : SplitResult :=
  match findSub DETERMINISTIC_SEPARATOR tailored_cv with
  | some i =>
    ⟨tailored_cv.take i,
     GAP_HEADING ++ strip (tailored_cv.drop (i + DETERMINISTIC_SEPARATOR.length)),
     "deterministic_separator".data⟩
  | none =>
    match gap_markers.find? (fun m => (findSub m tailored_cv).isSome) with
    | some m =>
      match findSub m tailored_cv with
      | some j =>
        ⟨tailored_cv.take j, m ++ tailored_cv.drop (j + m.length), "marker:".data ++ m⟩
      | none => ⟨tailored_cv, DEFAULT_GAP, "none".data⟩
    | none => ⟨tailored_cv, DEFAULT_GAP, "none".data⟩

/-- One iteration of the loop at lines 261 to 265: keep the position and
pattern of the strictly earliest forbidden match seen so far. -/
def scanStep (cv_lower : List Char) (acc : Nat × Option (List Char)) (p : List Char) :
    Nat × Option (List Char) :=
  match findSub p cv_lower with
  | some pos => if pos < acc.1 then (pos, some p) else acc
  | none => acc

/-- The loop at lines 261 to 265 run over a pattern list from a given
accumulator. -/
def scanFrom (cv_lower : List Char) (acc : Nat × Option (List Char))
    (ps : List (List Char)) : Nat × Option (List Char) :=
  ps.foldl (scanStep cv_lower) acc

/-- Lines 258 to 265: the earliest forbidden match in cv_lower, starting
from first_forbidden_pos = len(cv_content) and first_forbidden_pattern =
None. -/
def scan_forbidden (cv_lower : List Char) : Nat × Option (List Char) :=
  scanFrom cv_lower (cv_lower.length, none) forbidden_patterns

/-- Line 268 to 272: the start of the line containing position pos, that
is one past the last newline before pos, or 0 when there is none. -/
def line_start_of (cv_content : List Char) (pos : Nat) : Nat :=
  match rfindChar '\n' (cv_content.take pos) with
  | none => 0
  | some j => j + 1

/-- Layer 3, lines 257 to 279 of generate_tailored_cv.py: when a forbidden
pattern occurs (case-insensitively) in cv_content, truncate cv_content at
the start of the line of the earliest match, migrate the removed text to
the front of gap_analysis, and record the pattern in the method string. -/
def layer3 (r : SplitResult) : SplitResult :=
  match scan_forbidden (lower r.cv_content) with
  | (_, none) => r
  | (pos, some pat) =>
    let ls := line_start_of r.cv_content pos
    ⟨rstrip (r.cv_content.take ls),
     strip (r.cv_content.drop ls) ++ "\n\n".data ++ r.gap_analysis,
     r.split_method ++ "+layer3_strip:".data ++ pat⟩

/-- The full CLI splitter: lines 208 to 281 of generate_tailored_cv.py,
together with the final cv_content.strip() applied when the CV is written
at line 289.  The gap analysis is written unmodified. -/
def main_split (tailored_cv : List Char) : SplitResult :=
  let r := layer3 (layer12 tailored_cv)
  ⟨strip r.cv_content, r.gap_analysis, r.split_method⟩

/-- The one-layer web-service splitter, lines 118 to 133 of
webapp/main.py. -/
def split_cv_and_gaps (raw_cv : List Char) : List Char × List Char :=
  match webapp_gap_markers.find? (fun m => (findSub m raw_cv).isSome) with
  | some m =>
    match findSub m raw_cv with
    | some j => (strip (raw_cv.take j), strip (m ++ raw_cv.drop (j + m.length)))
    | none => (strip raw_cv, DEFAULT_GAP)
  | none => (strip raw_cv, DEFAULT_GAP)

/-! ### Basic lemmas about substring search -/

theorem prefOf_iff : ∀ p y : List Char, p.isPrefixOf y = true ↔ ∃ t, p ++ t = y
  | [], y => by simp [List.isPrefixOf]
  | _ :: _, [] => by simp [List.isPrefixOf]
  | a :: as, b :: bs => by
    simp only [List.isPrefixOf, Bool.and_eq_true, beq_iff_eq, List.cons_append,
      List.cons.injEq]
    constructor
    · rintro ⟨rfl, h⟩
      obtain ⟨t, rfl⟩ := (prefOf_iff as bs).1 h
      exact ⟨t, rfl, rfl⟩
    · rintro ⟨t, rfl, rfl⟩
      exact ⟨rfl, (prefOf_iff as (as ++ t)).2 ⟨t, rfl⟩⟩

theorem drop_len_append (a b : List Char) : (a ++ b).drop a.length = b := by
  simp

theorem occursAt_of_parts {a p b s : List Char} (h : a ++ (p ++ b) = s) :
    occursAt p s a.length := by
  unfold occursAt
  rw [← h, drop_len_append]
  exact (prefOf_iff p (p ++ b)).2 ⟨b, rfl⟩

theorem occurs_iff (p s : List Char) : Occurs p s ↔ ∃ a b, a ++ (p ++ b) = s := by
  constructor
  · rintro ⟨i, hi⟩
    obtain ⟨t, ht⟩ := (prefOf_iff p (s.drop i)).1 hi
    exact ⟨s.take i, t, by rw [ht, List.take_append_drop]⟩
  · rintro ⟨a, b, h⟩
    exact ⟨a.length, occursAt_of_parts h⟩

theorem occurs_chars {p s : List Char} (h : Occurs p s) : ∀ c ∈ p, c ∈ s := by
  obtain ⟨a, b, rfl⟩ := (occurs_iff p s).1 h
  intro c hc
  simp [hc]

theorem findSub_some_occurs (p : List Char) :
    ∀ (s : List Char) (i : Nat), findSub p s = some i → occursAt p s i
  | [], i, h => by
    unfold findSub at h
    split at h
    · cases h
      simpa [occursAt] using ‹p.isPrefixOf ([] : List Char) = true›
    · cases h
  | c :: t, i, h => by
    unfold findSub at h
    split at h
    next hpre =>
      cases h
      simpa [occursAt] using hpre
    next =>
      obtain ⟨i', hi', rfl⟩ := Option.map_eq_some'.1 h
      have ih := findSub_some_occurs p t i' hi'
      simpa [occursAt, List.drop_succ_cons] using ih

theorem findSub_least (p : List Char) :
    ∀ (s : List Char) (i : Nat), findSub p s = some i →
      ∀ j, j < i → ¬ occursAt p s j
  | [], i, h => by
    unfold findSub at h
    split at h
    · cases h; omega
    · cases h
  | c :: t, i, h => by
    unfold findSub at h
    split at h
    next => cases h; omega
    next hpre =>
      obtain ⟨i', hi', rfl⟩ := Option.map_eq_some'.1 h
      intro j hj
      match j with
      | 0 => simpa [occursAt] using hpre
      | j' + 1 =>
        have := findSub_least p t i' hi' j' (by omega)
        simpa [occursAt, List.drop_succ_cons] using this

theorem findSub_none_not (p : List Char) :
    ∀ s : List Char, findSub p s = none → ∀ j, ¬ occursAt p s j
  | [], h => by
    unfold findSub at h
    split at h
    · cases h
    next hpre =>
      intro j
      simpa [occursAt, List.drop_nil] using hpre
  | c :: t, h => by
    unfold findSub at h
    split at h
    next => cases h
    next hpre =>
      have ht : findSub p t = none := Option.map_eq_none'.1 h
      intro j
      match j with
      | 0 => simpa [occursAt] using hpre
      | j' + 1 =>
        have := findSub_none_not p t ht j'
        simpa [occursAt, List.drop_succ_cons] using this

theorem occurs_findSub_isSome {p s : List Char} {j : Nat} (h : occursAt p s j) :
    (findSub p s).isSome = true := by
  cases hf : findSub p s with
  | none => exact absurd h (findSub_none_not p s hf j)
  | some i => rfl

theorem findSub_isSome_iff (p s : List Char) :
    (findSub p s).isSome = true ↔ Occurs p s := by
  constructor
  · intro h
    obtain ⟨i, hi⟩ := Option.isSome_iff_exists.1 h
    exact ⟨i, findSub_some_occurs p s i hi⟩
  · rintro ⟨j, hj⟩
    exact occurs_findSub_isSome hj

instance (p s : List Char) : Decidable (Occurs p s) :=
  decidable_of_iff _ (findSub_isSome_iff p s)

theorem findSub_le_occursAt {p s : List Char} {i j : Nat}
    (h1 : findSub p s = some i) (h2 : occursAt p s j) : i ≤ j := by
  by_contra hn
  exact findSub_least p s i h1 j (by omega) h2

theorem findSub_eq_of_least {p s : List Char} {i : Nat}
    (h1 : occursAt p s i) (h2 : ∀ j, j < i → ¬ occursAt p s j) :
    findSub p s = some i := by
  obtain ⟨i₀, h₀⟩ := Option.isSome_iff_exists.1 (occurs_findSub_isSome h1)
  have o₀ := findSub_some_occurs p s i₀ h₀
  have le1 : i₀ ≤ i := findSub_le_occursAt h₀ h1
  have : ¬ i₀ < i := fun hlt => h2 i₀ hlt o₀
  have : i₀ = i := by omega
  rw [h₀, this]

theorem occursAt_lt_length {p s : List Char} {j : Nat} (hp : p ≠ [])
    (h : occursAt p s j) : j < s.length := by
  by_contra hn
  have hd : s.drop j = [] := List.drop_eq_nil_of_le (by omega)
  unfold occursAt at h
  rw [hd] at h
  match p with
  | [] => exact hp rfl
  | a :: as => simp [List.isPrefixOf] at h

theorem not_occurs_of_findSub_none {p s : List Char} (h : findSub p s = none) :
    ¬ Occurs p s := by
  rintro ⟨j, hj⟩
  exact findSub_none_not p s h j hj

theorem findSub_eq_none_of_not_occurs {p s : List Char} (h : ¬ Occurs p s) :
    findSub p s = none := by
  cases hf : findSub p s with
  | none => rfl
  | some i => exact absurd ⟨i, findSub_some_occurs p s i hf⟩ h

/-! ### Extraction lemmas: strip, take and lower only expose contiguous
pieces of the original text -/

theorem lstrip_extract (s : List Char) : ∃ u, u ++ lstrip s = s :=
  ⟨s.takeWhile isPySpace, List.takeWhile_append_dropWhile _ _⟩

theorem rstrip_extract (s : List Char) : ∃ t, rstrip s ++ t = s := by
  refine ⟨(s.reverse.takeWhile isPySpace).reverse, ?_⟩
  rw [rstrip, ← List.reverse_append, List.takeWhile_append_dropWhile,
    List.reverse_reverse]

theorem strip_extract (s : List Char) : ∃ u t, u ++ (strip s ++ t) = s := by
  obtain ⟨u, hu⟩ := lstrip_extract (rstrip s)
  obtain ⟨t, ht⟩ := rstrip_extract s
  exact ⟨u, t, by rw [← List.append_assoc, strip, hu, ht]⟩

theorem take_extract (s : List Char) (n : Nat) : ∃ t, s.take n ++ t = s :=
  ⟨s.drop n, List.take_append_drop n s⟩

theorem extract_trans {x y z : List Char}
    (h1 : ∃ u t, u ++ (x ++ t) = y) (h2 : ∃ u t, u ++ (y ++ t) = z) :
    ∃ u t, u ++ (x ++ t) = z := by
  obtain ⟨u1, t1, rfl⟩ := h1
  obtain ⟨u2, t2, rfl⟩ := h2
  exact ⟨u2 ++ u1, t1 ++ t2, by simp [List.append_assoc]⟩

theorem extract_of_pre {x y : List Char} (h : ∃ t, x ++ t = y) :
    ∃ u t, u ++ (x ++ t) = y := by
  obtain ⟨t, ht⟩ := h
  exact ⟨[], t, by simpa using ht⟩

theorem occurs_extract {p x s : List Char} (hx : ∃ u t, u ++ (x ++ t) = s)
    (h : Occurs p x) : Occurs p s := by
  obtain ⟨a, b, hab⟩ := (occurs_iff p x).1 h
  obtain ⟨u, t, hut⟩ := hx
  refine (occurs_iff p s).2 ⟨u ++ a, b ++ t, ?_⟩
  rw [← hut, ← hab]
  simp [List.append_assoc]

theorem lower_cons (c : Char) (t : List Char) :
    lower (c :: t) = lowerChars c ++ lower t := rfl

theorem lower_append (a b : List Char) : lower (a ++ b) = lower a ++ lower b := by
  induction a with
  | nil => rfl
  | cons c t ih =>
    rw [List.cons_append, lower_cons, lower_cons, ih, List.append_assoc]

theorem mem_lower {c : Char} {s : List Char} (h : c ∈ lower s) :
    ∃ d ∈ s, c ∈ lowerChars d := by
  induction s with
  | nil => cases h
  | cons a t ih =>
    rw [lower_cons] at h
    rcases List.mem_append.1 h with h1 | h2
    · exact ⟨a, List.mem_cons_self a t, h1⟩
    · obtain ⟨d, hd, hcd⟩ := ih h2
      exact ⟨d, List.mem_cons_of_mem a hd, hcd⟩

theorem occurs_lower_extract {p x s : List Char} (hx : ∃ u t, u ++ (x ++ t) = s)
    (h : Occurs p (lower x)) : Occurs p (lower s) := by
  obtain ⟨u, t, hut⟩ := hx
  refine occurs_extract ⟨lower u, lower t, ?_⟩ h
  rw [← hut, lower_append, lower_append]

theorem occurs_in_take {p x : List Char} {n : Nat} (hp : p ≠ [])
    (h : Occurs p (x.take n)) : ∃ j, occursAt p x j ∧ j < n := by
  obtain ⟨a, b, hab⟩ := (occurs_iff p (x.take n)).1 h
  have hx : a ++ (p ++ (b ++ x.drop n)) = x := by
    conv_rhs => rw [← List.take_append_drop n x]
    rw [← hab]
    simp [List.append_assoc]
  have hlen : a.length + (p.length + b.length) = (x.take n).length := by
    rw [← hab]
    simp
  have hple : (x.take n).length ≤ n := by
    rw [List.length_take]
    omega
  have hppos : 0 < p.length := List.length_pos.2 hp
  exact ⟨a.length, occursAt_of_parts hx, by omega⟩

/-! ### Facts about the static tables, settled by evaluation -/

theorem sep_ne_nil : DETERMINISTIC_SEPARATOR ≠ [] := by decide

theorem sep_has_nonspace : ∃ c ∈ DETERMINISTIC_SEPARATOR, isPySpace c = false := by decide

theorem markers_have_nonspace : ∀ m ∈ gap_markers, ∃ c ∈ m, isPySpace c = false := by
  decide

theorem patterns_have_nonspace : ∀ p ∈ forbidden_patterns, ∃ c ∈ p, isPySpace c = false := by
  decide

theorem lowerChar_of_space {c : Char} (h : isPySpace c = true) : lowerChar c = c := by
  unfold isPySpace at h
  simp only [Bool.or_eq_true, beq_iff_eq] at h
  rcases h with ((((rfl | rfl) | rfl) | rfl) | rfl) | rfl <;> rfl

theorem lowerChars_of_space {c : Char} (h : isPySpace c = true) :
    lowerChars c = [c] := by
  unfold isPySpace at h
  simp only [Bool.or_eq_true, beq_iff_eq] at h
  rcases h with ((((rfl | rfl) | rfl) | rfl) | rfl) | rfl <;> rfl

theorem lower_space {s : List Char} (h : ∀ c ∈ s, isPySpace c = true) :
    ∀ c ∈ lower s, isPySpace c = true := by
  intro c hc
  obtain ⟨d, hd, hcd⟩ := mem_lower hc
  rw [lowerChars_of_space (h d hd)] at hcd
  rw [List.mem_singleton.1 hcd]
  exact h d hd

theorem strip_of_space {s : List Char} (h : ∀ c ∈ s, isPySpace c = true) :
    strip s = [] := by
  have hr : rstrip s = [] := by
    unfold rstrip
    rw [List.dropWhile_eq_nil_iff.2 (fun x hx => h x (List.mem_reverse.1 hx))]
    rfl
  rw [strip, hr]
  rfl

theorem not_occurs_of_space {p s : List Char} (hs : ∀ c ∈ s, isPySpace c = true)
    (hp : ∃ c ∈ p, isPySpace c = false) : ¬ Occurs p s := by
  intro h
  obtain ⟨c, hcp, hcs⟩ := hp
  have := hs c (occurs_chars h c hcp)
  rw [this] at hcs
  cases hcs

/-! ### Invariants of the earliest-forbidden-match scan -/

theorem scanFrom_cons (cv : List Char) (acc : Nat × Option (List Char))
    (p : List Char) (ps : List (List Char)) :
    scanFrom cv acc (p :: ps) = scanFrom cv (scanStep cv acc p) ps := rfl

theorem scanStep_eq_of_none {cv p : List Char}
    (acc : Nat × Option (List Char)) (hf : findSub p cv = none) :
    scanStep cv acc p = acc := by
  unfold scanStep
  rw [hf]

theorem scanFrom_const (cv : List Char) :
    ∀ (ps : List (List Char)) (acc : Nat × Option (List Char)),
      (∀ p ∈ ps, findSub p cv = none) → scanFrom cv acc ps = acc
  | [], _, _ => rfl
  | p :: ps, acc, h => by
    rw [scanFrom_cons, scanStep_eq_of_none acc (h p (List.mem_cons_self p ps))]
    exact scanFrom_const cv ps acc fun q hq => h q (List.mem_cons_of_mem p hq)

theorem scan_forbidden_none_of (cv : List Char)
    (h : ∀ p ∈ forbidden_patterns, ¬ Occurs p cv) :
    scan_forbidden cv = (cv.length, none) := by
  unfold scan_forbidden
  exact scanFrom_const cv forbidden_patterns _
    fun p hp => findSub_eq_none_of_not_occurs (h p hp)

theorem layer12_sep {s : List Char} {i : Nat}
    (h : findSub DETERMINISTIC_SEPARATOR s = some i) :
    layer12 s =
      ⟨s.take i,
       GAP_HEADING ++ strip (s.drop (i + DETERMINISTIC_SEPARATOR.length)),
       "deterministic_separator".data⟩ := by
  unfold layer12
  rw [h]

theorem layer12_marker {s m : List Char} {j : Nat}
    (h0 : findSub DETERMINISTIC_SEPARATOR s = none)
    (h1 : gap_markers.find? (fun m => (findSub m s).isSome) = some m)
    (h2 : findSub m s = some j) :
    layer12 s = ⟨s.take j, m ++ s.drop (j + m.length), "marker:".data ++ m⟩ := by
  unfold layer12
  rw [h0, h1]
  dsimp only
  rw [h2]

theorem layer12_default {s : List Char}
    (h0 : findSub DETERMINISTIC_SEPARATOR s = none)
    (h1 : gap_markers.find? (fun m => (findSub m s).isSome) = none) :
    layer12 s = ⟨s, DEFAULT_GAP, "none".data⟩ := by
  unfold layer12
  rw [h0, h1]

theorem layer3_none {r : SplitResult}
    (h : (scan_forbidden (lower r.cv_content)).2 = none) : layer3 r = r := by
  unfold layer3
  rcases hv : scan_forbidden (lower r.cv_content) with ⟨pos, opt⟩
  rw [hv] at h
  simp only at h
  subst h
  rfl

theorem layer3_some {r : SplitResult} {pat : List Char}
    (h : (scan_forbidden (lower r.cv_content)).2 = some pat) :
    layer3 r =
      ⟨rstrip (r.cv_content.take
          (line_start_of r.cv_content (scan_forbidden (lower r.cv_content)).1)),
       strip (r.cv_content.drop
          (line_start_of r.cv_content (scan_forbidden (lower r.cv_content)).1)) ++
         "\n\n".data ++ r.gap_analysis,
       r.split_method ++ "+layer3_strip:".data ++ pat⟩ := by
  unfold layer3
  rcases hv : scan_forbidden (lower r.cv_content) with ⟨pos, opt⟩
  rw [hv] at h
  simp only at h
  subst h
  rfl

theorem main_split_eq (s : List Char) :
    main_split s =
      ⟨strip (layer3 (layer12 s)).cv_content, (layer3 (layer12 s)).gap_analysis,
       (layer3 (layer12 s)).split_method⟩ := rfl

theorem rfindChar_cons (c a : Char) (t : List Char) :
    rfindChar c (a :: t) =
      match rfindChar c t with
      | some i => some (i + 1)
      | none => if a == c then some 0 else none := rfl

theorem rfindChar_lt_length (c : Char) :
    ∀ (l : List Char) (j : Nat), rfindChar c l = some j → j < l.length
  | [], _, h => by cases h
  | a :: t, j, h => by
    rw [rfindChar_cons] at h
    cases hr : rfindChar c t with
    | some i =>
      rw [hr] at h
      cases h
      have := rfindChar_lt_length c t i hr
      simp only [List.length_cons]
      omega
    | none =>
      rw [hr] at h
      by_cases hac : a == c
      · rw [if_pos hac] at h
        cases h
        simp only [List.length_cons]
        omega
      · rw [if_neg hac] at h
        cases h

theorem line_start_of_none {cv : List Char} {pos : Nat}
    (h : rfindChar '\n' (cv.take pos) = none) : line_start_of cv pos = 0 := by
  unfold line_start_of
  rw [h]

theorem line_start_of_some {cv : List Char} {pos j : Nat}
    (h : rfindChar '\n' (cv.take pos) = some j) : line_start_of cv pos = j + 1 := by
  unfold line_start_of
  rw [h]

theorem line_start_le (cv : List Char) (pos : Nat) : line_start_of cv pos ≤ pos := by
  cases hr : rfindChar '\n' (cv.take pos) with
  | none =>
    rw [line_start_of_none hr]
    exact Nat.zero_le _
  | some j =>
    rw [line_start_of_some hr]
    have hj := rfindChar_lt_length '\n' (cv.take pos) j hr
    rw [List.length_take] at hj
    omega

theorem find?_first {α : Type} (p : α → Bool) :
    ∀ (pre : List α) (m : α) (post : List α),
      (∀ x ∈ pre, p x = false) → p m = true →
      List.find? p (pre ++ m :: post) = some m
  | [], m, post, _, hm => by
    rw [List.nil_append]
    exact List.find?_cons_of_pos post hm
  | a :: pre, m, post, hpre, hm => by
    rw [List.cons_append, List.find?_cons_of_neg _ (by
      rw [hpre a (List.mem_cons_self a pre)]
      exact Bool.false_ne_true)]
    exact find?_first p pre m post
      (fun x hx => hpre x (List.mem_cons_of_mem a hx)) hm

/-! ### The claims -/

/-- C1: the claimed invariant is the evident intent of Layer 3 (the source
block is titled forbidden content validation and its warning message
asserts the leaked content was stripped), but the code violates it.  On
thirteen copies of U+0130 followed by the text gap analysis, newline, ZZ,
the match position 26 is found in cv_lower, whose thirteen two-character
expansions make it longer than cv_content; used as an index into
cv_content it lands after the newline, so the truncation keeps the whole
line of the match: the forbidden pattern survives in the persisted
cv_content even though Layer 3 fired and recorded a strip in the method
string. -/
theorem c1_forbidden_survives :
    Occurs "gap analysis".data
      (main_split "İİİİİİİİİİİİİgap analysis\nZZ".data).cv_content ∧
    (main_split "İİİİİİİİİİİİİgap analysis\nZZ".data).split_method =
      "none+layer3_strip:gap analysis".data := by decide

/-- C2: the splitter is total by construction (it is a Lean function on
all of List Char), and on empty or whitespace-only input it returns the
empty cv_content, the placeholder gap analysis and method none. -/
theorem c2_whitespace_input (s : List Char) (h : ∀ c ∈ s, isPySpace c = true) :
    main_split s = ⟨[], DEFAULT_GAP, "none".data⟩ := by
  have hsep : findSub DETERMINISTIC_SEPARATOR s = none :=
    findSub_eq_none_of_not_occurs (not_occurs_of_space h sep_has_nonspace)
  have hmark : gap_markers.find? (fun m => (findSub m s).isSome) = none := by
    rw [List.find?_eq_none]
    intro m hm hs
    exact not_occurs_of_space h (markers_have_nonspace m hm)
      ((findSub_isSome_iff m s).1 hs)
  have h12 := layer12_default hsep hmark
  have hpat : ∀ p ∈ forbidden_patterns, ¬ Occurs p (lower s) := fun p hp =>
    not_occurs_of_space (lower_space h) (patterns_have_nonspace p hp)
  have hscan : (scan_forbidden (lower (layer12 s).cv_content)).2 = none := by
    rw [h12]
    show (scan_forbidden (lower s)).2 = none
    rw [scan_forbidden_none_of (lower s) hpat]
  rw [main_split_eq, layer3_none hscan, h12]
  show SplitResult.mk (strip s) DEFAULT_GAP "none".data = _
  rw [strip_of_space h]

theorem c2_witness :
    (∀ c ∈ " \n\t ".data, isPySpace c = true) ∧
      main_split " \n\t ".data = ⟨[], DEFAULT_GAP, "none".data⟩ :=
  ⟨by decide, c2_whitespace_input " \n\t ".data (by decide)⟩

/-- C10: the final cv_content never contains the deterministic separator
token: Layer 1 keeps only the text before its first occurrence, and every
later step only exposes a contiguous piece of that text. -/
theorem c10_cv_never_contains_separator (s : List Char) :
    ¬ Occurs DETERMINISTIC_SEPARATOR (main_split s).cv_content := by
  intro hocc
  have hext3 : ∃ u t,
      u ++ ((main_split s).cv_content ++ t) = (layer12 s).cv_content := by
    cases hres : (scan_forbidden (lower (layer12 s).cv_content)).2 with
    | none =>
      rw [main_split_eq, layer3_none hres]
      exact strip_extract _
    | some pat =>
      rw [main_split_eq, layer3_some hres]
      exact extract_trans
        (extract_trans (strip_extract _) (extract_of_pre (rstrip_extract _)))
        (extract_of_pre (take_extract _ _))
  have hocc12 : Occurs DETERMINISTIC_SEPARATOR (layer12 s).cv_content :=
    occurs_extract hext3 hocc
  cases hsep : findSub DETERMINISTIC_SEPARATOR s with
  | none =>
    have hext12 : ∃ u t, u ++ ((layer12 s).cv_content ++ t) = s := by
      cases hfind : gap_markers.find? (fun m => (findSub m s).isSome) with
      | none =>
        rw [layer12_default hsep hfind]
        exact ⟨[], [], by simp⟩
      | some m =>
        have hm0 := List.find?_some hfind
        obtain ⟨j, hj⟩ := Option.isSome_iff_exists.1 hm0
        rw [layer12_marker hsep hfind hj]
        exact extract_of_pre (take_extract s j)
    exact not_occurs_of_findSub_none hsep (occurs_extract hext12 hocc12)
  | some i =>
    rw [layer12_sep hsep] at hocc12
    obtain ⟨j, hj, hjlt⟩ := occurs_in_take sep_ne_nil hocc12
    have hle := findSub_le_occursAt hsep hj
    omega

/-- C3 as stated is false: when the pre-separator text itself contains a
forbidden pattern, Layer 3 truncates further, so cv_content is not the
trimmed text before the token.  Concrete refutation. -/
theorem c3_counterexample :
    (main_split
        "leak gap analysis\n---GAP_ANALYSIS_SEPARATOR---\nAfter.".data).cv_content ≠
      strip "leak gap analysis\n".data := by decide

/-- C3 amended: for inputs containing the separator exactly once and whose
pre-separator text contains no case-insensitive forbidden pattern, the
splitter returns the trimmed text before the token as cv_content and the
fixed gap heading followed by the trimmed text after the token as
gap_analysis. -/
theorem c3_amended (s : List Char) (i : Nat)
    (h1 : occursAt DETERMINISTIC_SEPARATOR s i)
    (h2 : ∀ j < s.length, occursAt DETERMINISTIC_SEPARATOR s j → j = i)
    (h3 : ∀ p ∈ forbidden_patterns, ¬ Occurs p (lower (s.take i))) :
    main_split s =
      ⟨strip (s.take i),
       GAP_HEADING ++ strip (s.drop (i + DETERMINISTIC_SEPARATOR.length)),
       "deterministic_separator".data⟩ := by
  have hleast : ∀ j, j < i → ¬ occursAt DETERMINISTIC_SEPARATOR s j := by
    intro j hj hocc
    have hjlen : j < s.length := occursAt_lt_length sep_ne_nil hocc
    have := h2 j hjlen hocc
    omega
  have hfind := findSub_eq_of_least h1 hleast
  have h12 := layer12_sep hfind
  have hscan : (scan_forbidden (lower (layer12 s).cv_content)).2 = none := by
    rw [h12]
    show (scan_forbidden (lower (s.take i))).2 = none
    rw [scan_forbidden_none_of _ h3]
  rw [main_split_eq, layer3_none hscan, h12]

theorem c3_witness :
    main_split "# CV\nGood.\n---GAP_ANALYSIS_SEPARATOR---\nGaps here.".data =
      ⟨strip ("# CV\nGood.\n---GAP_ANALYSIS_SEPARATOR---\nGaps here.".data.take 11),
       GAP_HEADING ++
         strip ("# CV\nGood.\n---GAP_ANALYSIS_SEPARATOR---\nGaps here.".data.drop
           (11 + DETERMINISTIC_SEPARATOR.length)),
       "deterministic_separator".data⟩ :=
  c3_amended "# CV\nGood.\n---GAP_ANALYSIS_SEPARATOR---\nGaps here.".data 11
    (by decide) (by decide) (by decide)

/-- C8 as stated is false: an input with no separator and no Layer-2
marker can still contain a forbidden pattern, in which case Layer 3 fires
and the method is not none.  Concrete refutation. -/
theorem c8_counterexample :
    (main_split "my gap analysis".data).split_method ≠ "none".data := by decide

/-- C8 amended: for inputs containing neither the separator, nor any
Layer-2 marker, nor any case-insensitive forbidden pattern, the splitter
returns method none, the trimmed whole input as cv_content, and the fixed
placeholder as gap_analysis. -/
theorem c8_amended (s : List Char)
    (h1 : ¬ Occurs DETERMINISTIC_SEPARATOR s)
    (h2 : ∀ m ∈ gap_markers, ¬ Occurs m s)
    (h3 : ∀ p ∈ forbidden_patterns, ¬ Occurs p (lower s)) :
    main_split s = ⟨strip s, DEFAULT_GAP, "none".data⟩ := by
  have hsep := findSub_eq_none_of_not_occurs h1
  have hfind : gap_markers.find? (fun m => (findSub m s).isSome) = none := by
    rw [List.find?_eq_none]
    intro m hm hs
    exact h2 m hm ((findSub_isSome_iff m s).1 hs)
  have h12 := layer12_default hsep hfind
  have hscan : (scan_forbidden (lower (layer12 s).cv_content)).2 = none := by
    rw [h12]
    show (scan_forbidden (lower s)).2 = none
    rw [scan_forbidden_none_of _ h3]
  rw [main_split_eq, layer3_none hscan, h12]

theorem c8_witness :
    main_split "# CV\nPlain content.".data =
      ⟨strip "# CV\nPlain content.".data, DEFAULT_GAP, "none".data⟩ :=
  c8_amended "# CV\nPlain content.".data (by decide) (by decide) (by decide)

/-- C5: when Layer 1 finds no token, Layer 2 splits at the first marker in
list order that occurs anywhere in the text (list priority wins over
textual position); the split point is the first occurrence of that marker,
and the marker is retained as the start of gap_analysis.  The hypothesis
decomposes the marker list as pre ++ m :: post with no member of pre
occurring; for the head marker "## Gap Analysis" pre is empty, so the
split always lands there regardless of other markers present. -/
theorem c5_layer2_priority (s m : List Char) (i : Nat)
    (pre post : List (List Char))
    (h0 : ¬ Occurs DETERMINISTIC_SEPARATOR s)
    (hm : gap_markers = pre ++ m :: post)
    (hpre : ∀ m' ∈ pre, ¬ Occurs m' s)
    (h1 : occursAt m s i)
    (h2 : ∀ j, j < i → ¬ occursAt m s j) :
    layer12 s = ⟨s.take i, m ++ s.drop (i + m.length), "marker:".data ++ m⟩ := by
  have hsep := findSub_eq_none_of_not_occurs h0
  have hfindm := findSub_eq_of_least h1 h2
  have hfind : gap_markers.find? (fun m' => (findSub m' s).isSome) = some m := by
    rw [hm]
    refine find?_first _ pre m post ?_ ?_
    · intro x hx
      show (findSub x s).isSome = false
      rw [findSub_eq_none_of_not_occurs (hpre x hx)]
      rfl
    · show (findSub m s).isSome = true
      rw [hfindm]
      rfl
  exact layer12_marker hsep hfind hfindm

theorem c5_witness :
    layer12 "Intro\n## Recommendations\nFoo\n## Gap Analysis\nBar".data =
      ⟨"Intro\n## Recommendations\nFoo\n## Gap Analysis\nBar".data.take 29,
       "## Gap Analysis".data ++
         "Intro\n## Recommendations\nFoo\n## Gap Analysis\nBar".data.drop
           (29 + "## Gap Analysis".data.length),
       "marker:".data ++ "## Gap Analysis".data⟩ :=
  c5_layer2_priority "Intro\n## Recommendations\nFoo\n## Gap Analysis\nBar".data
    "## Gap Analysis".data 29 [] gap_markers.tail
    (by decide) (by decide) (by decide) (by decide) (by decide)

/-- C7 as stated is false on the code: Layer 1 always prefixes the fixed
gap heading to the post-separator text, and in the concrete scenario that
text already starts with the same heading, so the heading is doubled. -/
theorem c7_counterexample :
    (main_split
        "# CV\n...content...\n---GAP_ANALYSIS_SEPARATOR---\n## Gap Analysis\nMissing AWS experience.".data).gap_analysis ≠
      "## Gap Analysis\nMissing AWS experience.".data := by decide

/-- C7 amended: on the concrete input the splitter returns the claimed
cv_content and method, but the gap analysis carries the heading twice. -/
theorem c7_amended :
    main_split
        "# CV\n...content...\n---GAP_ANALYSIS_SEPARATOR---\n## Gap Analysis\nMissing AWS experience.".data =
      ⟨"# CV\n...content...".data,
       "## Gap Analysis\n## Gap Analysis\nMissing AWS experience.".data,
       "deterministic_separator".data⟩ := by decide

/-- C9: the CLI 3-layer splitter and the web-service 1-layer splitter are
not extensionally equal: on an input that only contains the deterministic
separator, the CLI splits there while the web service finds no marker and
keeps the whole text. -/
theorem c9_implementations_differ :
    ∃ s : List Char,
      ((main_split s).cv_content, (main_split s).gap_analysis) ≠ split_cv_and_gaps s :=
  ⟨"A\n---GAP_ANALYSIS_SEPARATOR---\nB".data, by decide⟩

end CVSplit
